import Mathlib

/-!
Shallow embedding of the formatting engine in `src/printf.c` (repository
Hydra0xetc/print_c) and verification of its specified properties.

Modelling conventions:
* C strings are byte sequences in memory.  A template argument is modelled as
  the list of bytes starting at the format pointer: the template text, its NUL
  terminator, and whatever bytes happen to follow it in memory.  Bytes beyond
  the modelled list are assumed to be zero.
* Machine integers are modelled as `Int`/`Nat` with explicit two's-complement
  wrapping (`wrapS`) or `% 2 ^ w` where the C code can overflow or convert.
* C `double` values are modelled as exact rationals (`QVal`).  The C code
  computes with binary doubles; the rational model agrees with it whenever
  every intermediate operation is exact, which is the case for all inputs the
  theorems below evaluate the floating-point renderers on.
-/

/-- The NUL byte that terminates C strings. -/
def nulChar : Char := Char.ofNat 0

/-- Wrap an integer into the signed two's-complement range of `bits` bits.
Models C integer conversions and the wrapping the aarch64 target performs on
signed overflow. -/
def wrapS (bits : Nat) (x : Int) : Int :=
  (x + 2 ^ (bits - 1)) % 2 ^ bits - 2 ^ (bits - 1)

/-- `INT64_MIN`, the minimum representable signed 64-bit integer. -/
def int64Min : Int := -(2 ^ 63)

/-- Digit tables `digits_lower` / `digits_upper` of `uitoa`
(src/printf.c:190-192), indexed by digit value. -/
def digitChar (uppercase : Bool) (d : Nat) : Char :=
  ((if uppercase then "0123456789ABCDEF" else "0123456789abcdef").toList).getD d '0'

/-- The divide-and-mod loop of `uitoa` (src/printf.c:202-205), producing the
digits least-significant first.  The loop runs while `num > 0`; `num` shrinks
by `/ base` each step (every call site uses `base ≥ 8`), so fuel `num + 1`
is always sufficient. -/
def uitoaRev : Nat → Nat → Nat → Bool → List Char
  | 0, _, _, _ => []
  | fuel + 1, num, base, up =>
    if num = 0 then []
    else digitChar up (num % base) :: uitoaRev fuel (num / base) base up

/-- `uitoa` (src/printf.c:189-220): convert an unsigned integer to its digit
string in the given base.  Zero renders as `"0"`; otherwise the reversed digit
sequence is reversed into most-significant-first order. -/
def uitoa (num : Nat) (base : Nat) (up : Bool) : List Char :=
  if num = 0 then ['0'] else (uitoaRev (num + 1) num base up).reverse

/-- An exact rational value `n / d`; every value the embedding constructs has
a positive denominator.  C `double` values are modelled by these exact
rationals.  Arithmetic is plain numerator/denominator arithmetic without
normalization, so every operation reduces inside the kernel. -/
structure QVal where
  n : Int
  d : Int
deriving DecidableEq

/-- Embed an integer as an exact rational. -/
def QVal.ofInt (k : Int) : QVal := ⟨k, 1⟩

/-- Negation, `-value`. -/
def QVal.neg (q : QVal) : QVal := ⟨-q.n, q.d⟩

/-- Addition. -/
def QVal.add (a b : QVal) : QVal := ⟨a.n * b.d + b.n * a.d, a.d * b.d⟩

/-- Subtraction. -/
def QVal.sub (a b : QVal) : QVal := ⟨a.n * b.d - b.n * a.d, a.d * b.d⟩

/-- Multiplication by 10, `value *= 10.0`. -/
def QVal.mulTen (q : QVal) : QVal := ⟨q.n * 10, q.d⟩

/-- Division by 10, `value /= 10.0`; also `rounder *= 0.1`, which in exact
arithmetic is the same operation (the binary double `0.1` is inexact; see the
modelling note at the top of the file). -/
def QVal.divTen (q : QVal) : QVal := ⟨q.n, q.d * 10⟩

/-- Strict comparison `a < b` (denominators positive). -/
def QVal.blt (a b : QVal) : Bool := a.n * b.d < b.n * a.d

/-- Comparison `a ≤ b` (denominators positive). -/
def QVal.ble (a b : QVal) : Bool := a.n * b.d ≤ b.n * a.d

/-- Numeric equality test, `a == b` (denominators positive). -/
def QVal.beq (a b : QVal) : Bool := a.n * b.d = b.n * a.d

/-- Floor of the rational; for the nonnegative values it is applied to, this
is the C truncating cast. -/
def QVal.floor (q : QVal) : Int := Int.fdiv q.n q.d

/-- A C `double` as seen by the renderers: NaN, signed infinity, or a finite
value modelled as an exact rational. -/
inductive FloatVal
  | nan : FloatVal
  | inf : Bool → FloatVal
  | fin : QVal → FloatVal
deriving DecidableEq

/-- The rounding-bias loop of `ftoa`/`etoa` (src/printf.c:266-269, 363-366):
`rounder = 0.5` then `rounder *= 0.1`, `precision` times. -/
def rounderLoop : Nat → QVal → QVal
  | 0, r => r
  | k + 1, r => rounderLoop k r.divTen

/-- The rounding bias for a given precision. -/
def rounderFor (precision : Nat) : QVal := rounderLoop precision ⟨1, 2⟩

/-- The fractional-digit loop shared by `ftoa` and `etoa`
(src/printf.c:285-290): repeatedly multiply by 10 and emit the integer digit.
The `(int)` cast truncates toward zero; the fraction is nonnegative on every
reachable input, so truncation is the floor. -/
def fracDigitsLoop : Nat → QVal → List Char
  | 0, _ => []
  | k + 1, frac =>
    let f10 := frac.mulTen
    let digit : Int := f10.floor
    Char.ofNat (48 + digit.toNat) :: fracDigitsLoop k (f10.sub (QVal.ofInt digit))

/-- `ftoa` (src/printf.c:224-295): convert a double to fixed notation. -/
def ftoa (value : FloatVal) (precision0 : Int) (uppercase : Bool)
    (alternate : Bool) : List Char :=
  match value with
  | .nan => if uppercase then ['N', 'A', 'N'] else ['n', 'a', 'n']
  | .inf neg =>
      (if neg then ['-'] else []) ++
        (if uppercase then ['I', 'N', 'F'] else ['i', 'n', 'f'])
  | .fin q0 =>
    let signPart : List Char := if q0.blt (QVal.ofInt 0) then ['-'] else []
    let q1 : QVal := if q0.blt (QVal.ofInt 0) then q0.neg else q0
    let precision : Nat := if precision0 < 0 then 6 else precision0.toNat
    let v : QVal := q1.add (rounderFor precision)
    let intPart : Nat := v.floor.toNat
    let frac : QVal := v.sub (QVal.ofInt (intPart : Int))
    signPart ++ uitoa intPart 10 false ++
      (if 0 < precision ∨ alternate then '.' :: fracDigitsLoop precision frac
       else [])

/-- The `while (value >= 10.0)` normalization loop of `etoa`/`gtoa`
(src/printf.c:353-356, 440-443), fuelled. -/
def normDown : Nat → QVal → Int → QVal × Int
  | 0, v, e => (v, e)
  | fuel + 1, v, e =>
    if QVal.ble (QVal.ofInt 10) v then normDown fuel v.divTen (e + 1) else (v, e)

/-- The `while (value < 1.0 && value > 0.0)` normalization loop of `etoa`
(src/printf.c:357-360). -/
def normUp : Nat → QVal → Int → QVal × Int
  | 0, v, e => (v, e)
  | fuel + 1, v, e =>
    if QVal.blt v (QVal.ofInt 1) && QVal.blt (QVal.ofInt 0) v then
      normUp fuel v.mulTen (e - 1)
    else (v, e)

/-- The `while (abs_value < 1.0)` normalization loop of `gtoa`
(src/printf.c:444-447); it is only reached for nonzero values. -/
def normUpG : Nat → QVal → Int → QVal × Int
  | 0, v, e => (v, e)
  | fuel + 1, v, e =>
    if QVal.blt v (QVal.ofInt 1) then normUpG fuel v.mulTen (e - 1) else (v, e)

/-- Fuel for the normalization loops: finite doubles lie between about
`4.9e-324` and `1.8e308`, so 400 multiply/divide steps always suffice. -/
def expFuel : Nat := 400

/-- `etoa` (src/printf.c:298-420): convert a double to scientific notation. -/
def etoa (value : FloatVal) (precision0 : Int) (uppercase : Bool) : List Char :=
  match value with
  | .nan => if uppercase then ['N', 'A', 'N'] else ['n', 'a', 'n']
  | .inf neg =>
      (if neg then ['-'] else []) ++
        (if uppercase then ['I', 'N', 'F'] else ['i', 'n', 'f'])
  | .fin q0 =>
    let signPart : List Char := if q0.blt (QVal.ofInt 0) then ['-'] else []
    let q1 : QVal := if q0.blt (QVal.ofInt 0) then q0.neg else q0
    let precision : Nat := if precision0 < 0 then 6 else precision0.toNat
    if QVal.beq q1 (QVal.ofInt 0) then
      signPart ++ '0' ::
        ((if 0 < precision then '.' :: List.replicate precision '0' else []) ++
          [(if uppercase then 'E' else 'e'), '+', '0', '0'])
    else
      let p1 := normDown expFuel q1 0
      let p2 := normUp expFuel p1.1 p1.2
      let v3 : QVal := p2.1.add (rounderFor precision)
      let p3 : QVal × Int :=
        if QVal.ble (QVal.ofInt 10) v3 then (v3.divTen, p2.2 + 1) else (v3, p2.2)
      let intPart : Nat := p3.1.floor.toNat
      let frac : QVal := p3.1.sub (QVal.ofInt (intPart : Int))
      let mantissa : List Char :=
        uitoa intPart 10 false ++
          (if 0 < precision then '.' :: fracDigitsLoop precision frac else [])
      let eAbs : Nat := if 0 ≤ p3.2 then p3.2.toNat else (-p3.2).toNat
      let eSign : Char := if 0 ≤ p3.2 then '+' else '-'
      let eDigits : List Char :=
        if eAbs < 10 then ['0', Char.ofNat (48 + eAbs)] else uitoa eAbs 10 false
      signPart ++ mantissa ++ (if uppercase then 'E' else 'e') :: eSign :: eDigits

/-- `gtoa` (src/printf.c:423-467): convert a double to `%g`/`%G` format,
choosing between fixed and scientific notation by the decimal exponent. -/
def gtoa (value : FloatVal) (precision0 : Int) (uppercase : Bool) : List Char :=
  match value with
  | .nan => etoa .nan precision0 uppercase
  | .inf neg => etoa (.inf neg) precision0 uppercase
  | .fin q0 =>
    let precision : Int := if precision0 < 0 then 6 else precision0
    let absV : QVal := if q0.blt (QVal.ofInt 0) then q0.neg else q0
    let e : Int :=
      if QVal.beq absV (QVal.ofInt 0) then 0
      else
        (normUpG expFuel (normDown expFuel absV 0).1
          (normDown expFuel absV 0).2).2
    if e < -4 ∨ precision ≤ e then
      etoa (.fin q0) (if 0 < precision then precision - 1 else precision)
        uppercase
    else
      ftoa (.fin q0)
        (if precision - 1 - e < 0 then 0 else precision - 1 - e) uppercase false

/-- The parsed form of one `%...` token: the `format_flags` struct
(src/printf.c:484-494).  `width = -1` marks an argument-supplied width,
`precision = -1` means unspecified and `-2` marks an argument-supplied
precision, exactly as in the source. -/
structure format_flags where
  left_justify : Bool
  always_sign : Bool
  space_sign : Bool
  zero_pad : Bool
  alternate_form : Bool
  width : Int
  precision : Int
  length_modifier : Char
  specifier : Char
deriving DecidableEq

/-- The initialization of `format_flags` at the top of `parse_format`
(src/printf.c:504-512). -/
def initFlags : format_flags :=
  ⟨false, false, false, false, false, 0, -1, Char.ofNat 0, Char.ofNat 0⟩

/-- The flag-parsing loop of `parse_format` (src/printf.c:515-536).  Returns
the updated flags, the remaining input, and the number of bytes consumed. -/
def parseFlagsLoop : List Char → format_flags → format_flags × List Char × Nat
  | [], f => (f, [], 0)
  | c :: rest, f =>
    if c = '-' then
      let r := parseFlagsLoop rest {f with left_justify := true}
      (r.1, r.2.1, r.2.2 + 1)
    else if c = '+' then
      let r := parseFlagsLoop rest {f with always_sign := true}
      (r.1, r.2.1, r.2.2 + 1)
    else if c = ' ' then
      let r := parseFlagsLoop rest {f with space_sign := true}
      (r.1, r.2.1, r.2.2 + 1)
    else if c = '0' then
      let r := parseFlagsLoop rest {f with zero_pad := true}
      (r.1, r.2.1, r.2.2 + 1)
    else if c = '#' then
      let r := parseFlagsLoop rest {f with alternate_form := true}
      (r.1, r.2.1, r.2.2 + 1)
    else (f, c :: rest, 0)

/-- The decimal-digit accumulation loops of `parse_format`
(src/printf.c:542-545, 559-562).  The C accumulator is an `int`; overflow of
a literal width/precision is undefined behavior in C and is modelled as exact
integer arithmetic. -/
def parseDigits : List Char → Int → Int × List Char × Nat
  | [], acc => (acc, [], 0)
  | c :: rest, acc =>
    if '0' ≤ c ∧ c ≤ '9' then
      let r := parseDigits rest (acc * 10 + ((c.toNat : Int) - 48))
      (r.1, r.2.1, r.2.2 + 1)
    else (acc, c :: rest, 0)

/-- `parse_format` (src/printf.c:500-614): parse one specifier starting from
the byte after `%`, returning the flags and the count of bytes consumed
(which, as in the source, always includes the conversion-letter position,
even when that byte is the NUL terminator). -/
def parse_format (s : List Char) : format_flags × Nat :=
  let st1 := parseFlagsLoop s initFlags
  let f1 := st1.1
  let r1 := st1.2.1
  let n1 := st1.2.2
  let c1 := r1.getD 0 nulChar
  let st2 : format_flags × List Char × Nat :=
    if '0' ≤ c1 ∧ c1 ≤ '9' then
      let r := parseDigits r1 0
      ({f1 with width := r.1}, r.2.1, r.2.2)
    else if c1 = '*' then ({f1 with width := -1}, r1.drop 1, 1)
    else (f1, r1, 0)
  let f2 := st2.1
  let r2 := st2.2.1
  let n2 := st2.2.2
  let c2 := r2.getD 0 nulChar
  let st3 : format_flags × List Char × Nat :=
    if c2 = '.' then
      let r2b := r2.drop 1
      let c3 := r2b.getD 0 nulChar
      if '0' ≤ c3 ∧ c3 ≤ '9' then
        let r := parseDigits r2b 0
        ({f2 with precision := r.1}, r.2.1, r.2.2 + 1)
      else if c3 = '*' then ({f2 with precision := -2}, r2b.drop 1, 2)
      else ({f2 with precision := 0}, r2b, 1)
    else (f2, r2, 0)
  let f3 := st3.1
  let r3 := st3.2.1
  let n3 := st3.2.2
  let c4 := r3.getD 0 nulChar
  let st4 : format_flags × List Char × Nat :=
    if c4 = 'h' then
      if r3.getD 1 nulChar = 'h' then ({f3 with length_modifier := 'H'}, r3.drop 2, 2)
      else ({f3 with length_modifier := 'h'}, r3.drop 1, 1)
    else if c4 = 'l' then
      if r3.getD 1 nulChar = 'l' then ({f3 with length_modifier := 'L'}, r3.drop 2, 2)
      else ({f3 with length_modifier := 'l'}, r3.drop 1, 1)
    else if c4 = 'j' then ({f3 with length_modifier := 'j'}, r3.drop 1, 1)
    else if c4 = 'z' then ({f3 with length_modifier := 'z'}, r3.drop 1, 1)
    else if c4 = 't' then ({f3 with length_modifier := 't'}, r3.drop 1, 1)
    else if c4 = 'L' then ({f3 with length_modifier := 'B'}, r3.drop 1, 1)
    else (f3, r3, 0)
  let f4 := st4.1
  let r4 := st4.2.1
  let n4 := st4.2.2
  ({f4 with specifier := r4.getD 0 nulChar}, n1 + n2 + n3 + n4 + 1)

/-- One caller-supplied variadic argument, tagged with its apparent type. -/
inductive CArg
  | i : Int → CArg
  | f : FloatVal → CArg
  | s : Option (List Char) → CArg
  | p : Nat → CArg
  | outParam : CArg
deriving DecidableEq

/-- `va_arg` on the modelled argument list.  Reading past the supplied
arguments is undefined behavior in C (matching native variadic semantics);
it is modelled as yielding the integer 0. -/
def takeArg : List CArg → CArg × List CArg
  | [] => (CArg.i 0, [])
  | a :: rest => (a, rest)

/-- Reading an argument as an integer.  A wrong-typed access is undefined
behavior in C; modelled as 0. -/
def argAsInt : CArg → Int
  | CArg.i v => v
  | _ => 0

/-- Reading an argument as a double; wrong-typed access modelled as 0.0. -/
def argAsFloat : CArg → FloatVal
  | CArg.f v => v
  | _ => FloatVal.fin (QVal.ofInt 0)

/-- Reading an argument as a `char *`; `none` models a NULL pointer. -/
def argAsStr : CArg → Option (List Char)
  | CArg.s v => v
  | _ => none

/-- Reading an argument as a pointer value; pointers are 64-bit. -/
def argAsPtr : CArg → Nat
  | CArg.p v => v % 2 ^ 64
  | _ => 0

/-- Resolution of an argument-supplied width (src/printf.c:642-648): a
negative width flips `left_justify` and uses the (wrapping) negation. -/
def resolveWidth (f : format_flags) (args : List CArg) :
    format_flags × List CArg :=
  if f.width = -1 then
    let ar := takeArg args
    let w := wrapS 32 (argAsInt ar.1)
    if w < 0 then ({f with left_justify := true, width := wrapS 32 (-w)}, ar.2)
    else ({f with width := w}, ar.2)
  else (f, args)

/-- Resolution of an argument-supplied precision (src/printf.c:651-656): a
negative value resolves to "unspecified". -/
def resolvePrecision (f : format_flags) (args : List CArg) :
    format_flags × List CArg :=
  if f.precision = -2 then
    let ar := takeArg args
    let pr := wrapS 32 (argAsInt ar.1)
    if pr < 0 then ({f with precision := -1}, ar.2)
    else ({f with precision := pr}, ar.2)
  else (f, args)

/-- The pad character of the integer conversions (src/printf.c:798-799 and
933-935): zero only when the zero flag is set and no precision was given. -/
def intPadChar (zeroPad : Bool) (precision : Int) : Char :=
  if zeroPad ∧ precision < 0 then '0' else ' '

/-- Fetching the value of a `%d`/`%i` directive according to the length
modifier (src/printf.c:708-734), with the C truncating conversions modelled
by two's-complement wrapping. -/
def fetchSigned (lm : Char) (a : CArg) : Int :=
  let v := argAsInt a
  if lm = 'H' then wrapS 8 v
  else if lm = 'h' then wrapS 16 v
  else if lm = 'l' ∨ lm = 'L' ∨ lm = 'j' ∨ lm = 'z' ∨ lm = 't' then wrapS 64 v
  else wrapS 32 v

/-- Fetching the value of a `%u/%o/%x/%X` directive according to the length
modifier (src/printf.c:845-870). -/
def fetchUnsigned (lm : Char) (a : CArg) : Nat :=
  let v := argAsInt a
  if lm = 'H' then (v % 2 ^ 8).toNat
  else if lm = 'h' then (v % 2 ^ 16).toNat
  else if lm = 'l' ∨ lm = 'L' ∨ lm = 'j' ∨ lm = 'z' ∨ lm = 't' then
    (v % 2 ^ 64).toNat
  else (v % 2 ^ 32).toNat

/-- The `%d`/`%i` case body (src/printf.c:702-826), given the already-fetched
value.  The negation `value = -value` is signed 64-bit arithmetic in the C
source and is modelled with two's-complement wrapping; the `(uint64_t)value`
cast is `% 2 ^ 64`. -/
def formatD (f : format_flags) (value0 : Int) : List Char :=
  let neg : Bool := value0 < 0
  let value : Int := if value0 < 0 then wrapS 64 (-value0) else value0
  let num_str : List Char :=
    if f.precision = 0 ∧ value = 0 then []
    else uitoa (value % 2 ^ 64).toNat 10 false
  let len := num_str.length
  let sgn : Option Char :=
    if neg then some '-'
    else if f.always_sign then some '+'
    else if f.space_sign then some ' '
    else none
  let final1 : List Char :=
    if (len : Int) < f.precision then
      sgn.toList ++ List.replicate (f.precision - len).toNat '0' ++ num_str
    else sgn.toList ++ num_str
  let flen := final1.length
  if ¬f.left_justify ∧ (flen : Int) < f.width then
    let pad := (f.width - flen).toNat
    let pc := intPadChar f.zero_pad f.precision
    if pc = '0' ∧ sgn.isSome then
      sgn.toList ++ List.replicate pad pc ++ final1.drop 1
    else List.replicate pad pc ++ final1
  else
    final1 ++
      (if f.left_justify ∧ (flen : Int) < f.width then
        List.replicate (f.width - flen).toNat ' '
      else [])

/-- The `%u/%o/%x/%X/%p` case body (src/printf.c:828-960), given the fetched
unsigned value; for `%p` the engine has already forced `alternate_form`. -/
def formatU (f : format_flags) (value : Nat) : List Char :=
  let base : Nat :=
    if f.specifier = 'o' then 8
    else if f.specifier = 'x' ∨ f.specifier = 'X' ∨ f.specifier = 'p' then 16
    else 10
  let uppercase : Bool := f.specifier = 'X'
  let num_str : List Char :=
    if f.precision = 0 ∧ value = 0 ∧ ¬(f.specifier = 'p') then []
    else uitoa value base uppercase
  let pfx : List Char :=
    if f.alternate_form ∧ ¬(value = 0) then
      if base = 8 then ['0']
      else if base = 16 then ['0', if uppercase then 'X' else 'x']
      else []
    else []
  let len := num_str.length
  let plen := pfx.length
  let num_str2 : List Char :=
    if ((len + plen : Nat) : Int) < f.precision then
      List.replicate (f.precision - (len + plen)).toNat '0' ++ num_str
    else num_str
  let total := num_str2.length + plen
  if ¬f.left_justify ∧ (total : Int) < f.width then
    List.replicate (f.width - total).toNat (intPadChar f.zero_pad f.precision)
      ++ pfx ++ num_str2
  else
    pfx ++ num_str2 ++
      (if f.left_justify ∧ (total : Int) < f.width then
        List.replicate (f.width - total).toNat ' '
      else [])

/-- The `%s` case body (src/printf.c:667-700): NULL renders as `(null)`,
precision truncates, width pads with spaces. -/
def formatS (f : format_flags) (sOpt : Option (List Char)) : List Char :=
  let str := sOpt.getD ['(', 'n', 'u', 'l', 'l', ')']
  let len0 := str.length
  let len : Nat :=
    if 0 ≤ f.precision ∧ f.precision < (len0 : Int) then f.precision.toNat
    else len0
  let body := str.take len
  (if ¬f.left_justify ∧ (len : Int) < f.width then
     List.replicate (f.width - len).toNat ' '
   else []) ++ body ++
  (if f.left_justify ∧ (len : Int) < f.width then
     List.replicate (f.width - len).toNat ' '
   else [])

/-- The sign/width composition repeated verbatim by the `%f`, `%e` and `%g`
case bodies (src/printf.c:976-1037, 1052-1105, 1120-1173). -/
def composeFloat (f : format_flags) (num_str : List Char) : List Char :=
  let c0 := num_str.getD 0 nulChar
  let skip : Bool := c0 = '-' ∨ c0 = '+'
  let sgn : Option Char :=
    if c0 = '-' then some '-'
    else if c0 = '+' then some '+'
    else if f.always_sign then some '+'
    else if f.space_sign then some ' '
    else none
  let body := if skip then num_str.drop 1 else num_str
  let total := body.length + (if sgn.isSome then 1 else 0)
  if ¬f.left_justify ∧ (total : Int) < f.width then
    let pad := (f.width - total).toNat
    let pc : Char := if f.zero_pad then '0' else ' '
    if pc = '0' ∧ sgn.isSome then
      sgn.toList ++ List.replicate pad pc ++ body
    else List.replicate pad pc ++ sgn.toList ++ body
  else
    sgn.toList ++ body ++
      (if f.left_justify ∧ (total : Int) < f.width then
        List.replicate (f.width - total).toNat ' '
      else [])

/-- Dispatch on the conversion specifier: the `switch` at src/printf.c:659.
Returns `none` for the `default` case (unrecognized specifier); `%n` writes
the running byte count through the argument pointer, a side effect outside
the byte output, and emits nothing. -/
def dispatch (f : format_flags) (args : List CArg) :
    Option (List Char × List CArg) :=
  if f.specifier = 'c' then
    let ar := takeArg args
    some ([Char.ofNat ((argAsInt ar.1) % 2 ^ 8).toNat], ar.2)
  else if f.specifier = 's' then
    let ar := takeArg args
    some (formatS f (argAsStr ar.1), ar.2)
  else if f.specifier = 'd' ∨ f.specifier = 'i' then
    let ar := takeArg args
    some (formatD f (fetchSigned f.length_modifier ar.1), ar.2)
  else if f.specifier = 'u' ∨ f.specifier = 'o' ∨ f.specifier = 'x' ∨
      f.specifier = 'X' then
    let ar := takeArg args
    some (formatU f (fetchUnsigned f.length_modifier ar.1), ar.2)
  else if f.specifier = 'p' then
    let ar := takeArg args
    some (formatU {f with alternate_form := true} (argAsPtr ar.1), ar.2)
  else if f.specifier = 'f' ∨ f.specifier = 'F' then
    let ar := takeArg args
    some (composeFloat f
      (ftoa (argAsFloat ar.1) f.precision (f.specifier = 'F')
        f.alternate_form), ar.2)
  else if f.specifier = 'e' ∨ f.specifier = 'E' then
    let ar := takeArg args
    some (composeFloat f
      (etoa (argAsFloat ar.1) f.precision (f.specifier = 'E')), ar.2)
  else if f.specifier = 'g' ∨ f.specifier = 'G' then
    let ar := takeArg args
    some (composeFloat f
      (gtoa (argAsFloat ar.1) f.precision (f.specifier = 'G')), ar.2)
  else if f.specifier = 'n' then
    let ar := takeArg args
    some ([], ar.2)
  else none

/-- Handling of one parsed directive (src/printf.c:641-1190): resolve `*`
width and precision from the argument list, then dispatch; the result is the
emitted bytes, the remaining template bytes, and the remaining arguments.
In the `default` case the source rolls the cursor back to the byte after the
`%` (`format -= consumed`), emits that single byte and rescans from the next
one. -/
def runDirective (f : format_flags) (consumed : Nat) (rest : List Char)
    (args : List CArg) : List Char × List Char × List CArg :=
  let st1 := resolveWidth f args
  let st2 := resolvePrecision st1.1 st1.2
  match dispatch st2.1 st2.2 with
  | some out => (out.1, rest.drop consumed, out.2)
  | none => ([rest.getD 0 nulChar], rest.drop 1, st2.2)

/-- One `%` directive (src/printf.c:636-1190): parse the specifier from the
bytes `rest` after the `%`, then handle it. -/
def formatDirective (rest : List Char) (args : List CArg) :
    List Char × List Char × List CArg :=
  runDirective (parse_format rest).1 (parse_format rest).2 rest args

/-- The main loop of `format_to_buffer` (src/printf.c:619-1195).  `mem` is
the byte sequence in memory starting at the format pointer: the template,
its NUL terminator, and whatever bytes follow; bytes beyond `mem` are assumed
zero.  Every iteration consumes at least one byte of `mem`, so fuel
`mem.length + 1` always suffices. -/
def formatLoop : Nat → List Char → List CArg → List Char
  | 0, _, _ => []
  | _ + 1, [], _ => []
  | fuel + 1, c :: rest, args =>
    if c = nulChar then []
    else if c = '%' then
      if rest.getD 0 nulChar = '%' then '%' :: formatLoop fuel (rest.drop 1) args
      else
        (formatDirective rest args).1 ++
          formatLoop fuel (formatDirective rest args).2.1
            (formatDirective rest args).2.2
    else c :: formatLoop fuel rest args

/-- `format_to_buffer` (src/printf.c:619-1195) as a function of the memory
bytes at the format pointer and the argument list, returning the bytes
written to the output buffer. -/
def format_to_buffer (mem : List Char) (args : List CArg) : List Char :=
  formatLoop (mem.length + 1) mem args

/-- The template proper held in a memory region: the bytes before the first
NUL terminator. -/
def templateOf (mem : List Char) : List Char :=
  mem.takeWhile (fun c => ¬(c = nulChar))

/-- The memory image of a well-formed template: its bytes followed by the
NUL terminator. -/
def memOf (tpl : List Char) : List Char := tpl ++ [nulChar]

/-- The fixed capacity of the output buffer `char buffer[4096]` declared by
`printf` (src/printf.c:1206); `format_to_buffer` receives no capacity
parameter and performs no bounds check on it. -/
def printf_buffer_capacity : Nat := 4096

/-- Modelled from the spec: the byte sequence a standard C `printf` produces
for a `%c` directive with a field width — the single character right-justified
with spaces to the width (spec section 4.3(b) and section 6); this reference
definition exists only to compare the engine against the spec's reference
semantics. -/
def printfRef_c (width : Int) (left : Bool) (ch : Char) : List Char :=
  if ¬left ∧ 1 < width then List.replicate (width - 1).toNat ' ' ++ [ch]
  else if left ∧ 1 < width then ch :: List.replicate (width - 1).toNat ' '
  else [ch]

/-- Modelled from the spec: `parse_unsigned(s, b)` (spec section 8), the
canonical positional interpretation of a digit string in base `b`, used to
state the render/parse round trip. -/
def digitVal (c : Char) : Nat :=
  if '0' ≤ c ∧ c ≤ '9' then c.toNat - 48
  else if 'a' ≤ c ∧ c ≤ 'f' then c.toNat - 97 + 10
  else if 'A' ≤ c ∧ c ≤ 'F' then c.toNat - 65 + 10
  else 0

/-- Modelled from the spec: `parse_unsigned` folds the digit string
most-significant first. -/
def parse_unsigned (s : List Char) (base : Nat) : Nat :=
  s.foldl (fun acc c => acc * base + digitVal c) 0

/-! ## Verification of the specified claims -/

/-- C1: the spec claims `format_to_buffer` produces, for every template and
well-typed argument sequence, the exact byte sequence a standard C printf
would produce.  At template `"%2c"` with argument `'Z'` the engine ignores
the field width and emits `"Z"`, while the reference printf right-justifies
the character to the width and emits `" Z"`; the outputs differ, so the
equivalence fails. -/
theorem c1_char_width_diverges_from_printf :
    format_to_buffer (memOf (("%2c").toList)) [CArg.i 90] = ['Z'] ∧
    printfRef_c 2 false 'Z' = [' ', 'Z'] ∧
    format_to_buffer (memOf (("%2c").toList)) [CArg.i 90] ≠
      printfRef_c 2 false 'Z' := by
  refine ⟨by decide, by decide, by decide⟩

/-- C2: the spec claims the magnitude of `INT64_MIN` is computed via unsigned
arithmetic and never by signed negation.  The code executes `value = -value`
on the signed 64-bit value (src/printf.c:739); for `INT64_MIN` that negation
overflows — under the target's two's-complement wrapping it yields
`INT64_MIN` again, not the magnitude `2^63` — and only the subsequent
`(uint64_t)` cast of the wrapped value makes the final digit string come out
right. -/
theorem c2_min_signed_negation_overflows :
    wrapS 64 (-int64Min) = int64Min ∧
    wrapS 64 (-int64Min) ≠ 2 ^ 63 ∧
    format_to_buffer (memOf (("%ld").toList)) [CArg.i int64Min]
      = ("-9223372036854775808").toList := by
  refine ⟨by decide, by decide, by decide⟩

/-- C4 counterexample: the claim says an unrecognized specifier re-emits
exactly the consumed bytes including the `%` itself.  On template `"%q"` the
engine emits `"q"`, not `"%q"`: the leading `%` is dropped. -/
theorem c4_counterexample_percent_dropped :
    format_to_buffer (memOf (("%q").toList)) [] = ("q").toList ∧
    ("q").toList ≠ ("%q").toList := by
  refine ⟨by decide, by decide⟩

/-- C5: the spec claims formatting never reads past the end of the template,
including for a template ending in a lone `%`.  For the template `"%"` the
engine emits the NUL terminator into the output and keeps scanning the bytes
that happen to follow the terminator in memory: two memory regions holding
the same template `"%"` but different bytes after the terminator produce
different outputs. -/
theorem c5_lone_percent_reads_past_end :
    templateOf ['%', nulChar, 'A', nulChar]
      = templateOf ['%', nulChar, 'B', nulChar] ∧
    format_to_buffer ['%', nulChar, 'A', nulChar] [] = [nulChar, 'A'] ∧
    format_to_buffer ['%', nulChar, 'B', nulChar] [] = [nulChar, 'B'] ∧
    format_to_buffer ['%', nulChar, 'A', nulChar] [] ≠
      format_to_buffer ['%', nulChar, 'B', nulChar] [] := by
  refine ⟨by decide, by decide, by decide, by decide⟩

/-- C7: the spec claims `gtoa` treats an explicit precision of 0 as
precision 1 before choosing the notation.  It does not: `gtoa` uses
precision 0 as-is, so for the value 5.0 the test `exponent >= precision`
(0 ≥ 0) selects scientific notation and prints `"5e+00"`, whereas with
precision treated as 1 the exponent test (0 ≥ 1) would select fixed notation
and print `"5"` — exactly what `gtoa` does when handed precision 1. -/
theorem c7_gtoa_precision_zero_not_treated_as_one :
    gtoa (FloatVal.fin (QVal.ofInt 5)) 0 false = ("5e+00").toList ∧
    gtoa (FloatVal.fin (QVal.ofInt 5)) 1 false = ("5").toList ∧
    gtoa (FloatVal.fin (QVal.ofInt 5)) 0 false ≠
      gtoa (FloatVal.fin (QVal.ofInt 5)) 1 false := by
  refine ⟨by decide, by decide, by decide⟩

/-- C9 counterexample: the claim says every pointer argument is rendered as
lowercase hex preceded by `0x`.  A null pointer renders as the single digit
`"0"` with no prefix (the alternate-form prefix is suppressed when the value
is 0 at src/printf.c:905). -/
theorem c9_counterexample_null_pointer :
    format_to_buffer (memOf (("%p").toList)) [CArg.p 0] = ['0'] ∧
    format_to_buffer (memOf (("%p").toList)) [CArg.p 0] ≠
      '0' :: 'x' :: ['0'] := by
  refine ⟨by decide, by decide⟩

/-- When a precision is given (nonnegative), the integer pad character is a
space regardless of the zero flag. -/
theorem intPadChar_of_nonneg (z : Bool) (p : Int) (h : 0 ≤ p) :
    intPadChar z p = ' ' := by
  simp [intPadChar, not_lt.mpr h]

/-- C6: for the integer conversions, an explicit precision disables
zero-padding: with any nonnegative precision the `%d/%i` and `%u/%o/%x/%X`
compositions are unchanged by clearing the zero flag, and concretely
formatting `"%05.2d"` with argument 3 yields `"   03"` (spaces, not
zeros). -/
theorem c6_precision_disables_zero_padding :
    (∀ (f : format_flags) (v : Int), 0 ≤ f.precision →
        formatD f v = formatD {f with zero_pad := false} v) ∧
    (∀ (f : format_flags) (v : Nat), 0 ≤ f.precision →
        formatU f v = formatU {f with zero_pad := false} v) ∧
    format_to_buffer (memOf (("%05.2d").toList)) [CArg.i 3]
      = ("   03").toList := by
  refine ⟨?_, ?_, by decide⟩
  · intro f v h
    simp only [formatD, intPadChar_of_nonneg _ _ h]
  · intro f v h
    simp only [formatU, intPadChar_of_nonneg _ _ h]

/-- Witness for C6 at concrete inputs: the flags of `"%05.2d"` with the zero
flag set and cleared produce the same field for the argument 3. -/
theorem c6_precision_disables_zero_padding_witness :
    formatD ⟨false, false, false, true, false, 5, 2, Char.ofNat 0, 'd'⟩ 3
      = formatD ⟨false, false, false, false, false, 5, 2, Char.ofNat 0, 'd'⟩ 3 :=
  c6_precision_disables_zero_padding.1
    ⟨false, false, false, true, false, 5, 2, Char.ofNat 0, 'd'⟩ 3 (by decide)

/-- Every literal (non-`%`) template runs through the loop unchanged. -/
theorem formatLoop_literal : ∀ (m fuel : Nat) (args : List CArg), m < fuel →
    formatLoop fuel (List.replicate m 'a' ++ [nulChar]) args
      = List.replicate m 'a' := by
  intro m
  induction m with
  | zero =>
    intro fuel args h
    match fuel, h with
    | fuel + 1, _ =>
      show formatLoop (fuel + 1) [nulChar] args = []
      rfl
  | succ k ih =>
    intro fuel args h
    match fuel, h with
    | fuel + 1, h =>
      have h1 : k < fuel := Nat.lt_of_succ_lt_succ h
      show formatLoop (fuel + 1) ('a' :: (List.replicate k 'a' ++ [nulChar]))
          args = 'a' :: List.replicate k 'a'
      rw [show formatLoop (fuel + 1)
            ('a' :: (List.replicate k 'a' ++ [nulChar])) args
          = 'a' :: formatLoop fuel (List.replicate k 'a' ++ [nulChar]) args
          from rfl,
        ih fuel args h1]

/-- C3: the spec claims every write is preceded by a capacity check and that
an output exceeding the fixed buffer capacity surfaces a BufferOverflow
failure.  `format_to_buffer` has no capacity parameter, performs no bounds
check, and has no error result: on a 5000-byte literal template it simply
produces all 5000 bytes, exceeding the 4096-byte buffer `printf` gives it. -/
theorem c3_buffer_overflow_unchecked :
    (format_to_buffer (memOf (List.replicate 5000 'a')) []).length = 5000 ∧
    printf_buffer_capacity < 5000 := by
  have hl : (memOf (List.replicate 5000 'a')).length + 1 = 5002 := by
    simp only [memOf, List.length_append, List.length_replicate,
      List.length_singleton]
  have h2 : format_to_buffer (memOf (List.replicate 5000 'a')) []
      = List.replicate 5000 'a' := by
    rw [format_to_buffer, hl, memOf]
    exact formatLoop_literal 5000 5002 [] (by omega)
  constructor
  · rw [h2, List.length_replicate]
  · norm_num [printf_buffer_capacity]

/-- C4 (amended): on a `%` followed by an unparseable specifier the engine
drops the leading `%` and re-emits the remaining consumed bytes: the byte
immediately after the `%` is emitted literally and scanning resumes at the
following byte, so the rest of the attempted specifier and the rest of the
template are still processed.  The first conjunct shows a `%` followed by
any unrecognized conversion letter emits exactly that letter; the second
shows the bytes of `"%q"` minus the `%` re-enter the output while the later
`%d` directive is still formatted. -/
theorem c4_amended_literal_passthrough :
    (∀ c : Char,
      ¬(c = '%') →
      ¬(c = '-') → ¬(c = '+') → ¬(c = ' ') → ¬(c = '0') → ¬(c = '#') →
      ¬('0' ≤ c ∧ c ≤ '9') → ¬(c = '*') → ¬(c = '.') →
      ¬(c = 'h') → ¬(c = 'l') → ¬(c = 'j') → ¬(c = 'z') → ¬(c = 't') →
      ¬(c = 'L') →
      ¬(c = 'c') → ¬(c = 's') → ¬(c = 'd') → ¬(c = 'i') →
      ¬(c = 'u') → ¬(c = 'o') → ¬(c = 'x') → ¬(c = 'X') → ¬(c = 'p') →
      ¬(c = 'f') → ¬(c = 'F') → ¬(c = 'e') → ¬(c = 'E') → ¬(c = 'g') →
      ¬(c = 'G') → ¬(c = 'n') →
      format_to_buffer (memOf ['%', c]) [] = [c]) ∧
    format_to_buffer (memOf (("%q%d").toList)) [CArg.i 7]
      = ("q7").toList := by
  refine ⟨?_, by decide⟩
  intro c h0 h1 h2 h3 h4 h5 h6 h7 h8 h9 h10 h11 h12 h13 h14 h15 h16 h17 h18
    h19 h20 h21 h22 h23 h24 h25 h26 h27 h28 h29 h30
  have hp : parse_format [c, nulChar] = ({initFlags with specifier := c}, 1) := by
    simp [parse_format, parseFlagsLoop, h1, h2, h3, h4, h5, h6, h7, h8, h9,
      h10, h11, h12, h13, h14]
  have hw : resolveWidth {initFlags with specifier := c} []
      = ({initFlags with specifier := c}, []) := by
    simp [resolveWidth, initFlags]
  have hpr : resolvePrecision {initFlags with specifier := c} []
      = ({initFlags with specifier := c}, []) := by
    simp [resolvePrecision, initFlags]
  have hd : dispatch {initFlags with specifier := c} [] = none := by
    simp [dispatch, h15, h16, h17, h18, h19, h20, h21, h22, h23, h24, h25,
      h26, h27, h28, h29, h30]
  have hrun : runDirective {initFlags with specifier := c} 1 [c, nulChar] []
      = ([c], [nulChar], []) := by
    simp only [runDirective, hw, hpr, hd]
    simp
  have hdir : formatDirective [c, nulChar] [] = ([c], [nulChar], []) := by
    have ha : formatDirective [c, nulChar] []
        = runDirective (parse_format [c, nulChar]).1
            (parse_format [c, nulChar]).2 [c, nulChar] [] := rfl
    rw [ha, hp]
    exact hrun
  show formatLoop 4 ['%', c, nulChar] [] = [c]
  rw [show formatLoop 4 ['%', c, nulChar] [] =
      (if c = '%' then '%' :: formatLoop 3 ([c, nulChar].drop 1) []
       else
        (formatDirective [c, nulChar] []).1 ++
          formatLoop 3 (formatDirective [c, nulChar] []).2.1
            (formatDirective [c, nulChar] []).2.2) from rfl]
  rw [if_neg h0, hdir]
  rw [show formatLoop 3 [nulChar] ([] : List CArg) = [] from rfl]
  rfl

/-- Witness for C4 at the concrete unrecognized letter `@`. -/
theorem c4_amended_literal_passthrough_witness :
    format_to_buffer (memOf ['%', '@']) [] = ['@'] :=
  c4_amended_literal_passthrough.1 '@' (by decide) (by decide) (by decide)
    (by decide) (by decide) (by decide) (by decide) (by decide) (by decide)
    (by decide) (by decide) (by decide) (by decide) (by decide) (by decide)
    (by decide) (by decide) (by decide) (by decide) (by decide) (by decide)
    (by decide) (by decide) (by decide) (by decide) (by decide) (by decide)
    (by decide) (by decide) (by decide) (by decide)

/-- Each digit character maps back to its digit value. -/
theorem digitVal_digitChar (up : Bool) :
    ∀ d : Nat, d < 16 → digitVal (digitChar up d) = d := by
  cases up <;> decide

/-- Appending one digit multiplies the parsed value by the base and adds the
digit. -/
theorem parse_unsigned_append (xs : List Char) (d : Char) (base : Nat) :
    parse_unsigned (xs ++ [d]) base = parse_unsigned xs base * base + digitVal d := by
  simp [parse_unsigned, List.foldl_append]

/-- The digit loop of `uitoa` round-trips through `parse_unsigned`, and every
character it produces is a digit of the base. -/
theorem uitoaRev_parse (base : Nat) (hb : 2 ≤ base) (hb16 : base ≤ 16)
    (up : Bool) :
    ∀ fuel num : Nat, num < fuel →
      parse_unsigned ((uitoaRev fuel num base up).reverse) base = num ∧
      (∀ c ∈ uitoaRev fuel num base up, ∃ d, d < base ∧ c = digitChar up d) := by
  intro fuel
  induction fuel with
  | zero => intro num h; exact absurd h (by omega)
  | succ k ih =>
    intro num h
    by_cases hz : num = 0
    · subst hz
      constructor
      · simp [uitoaRev, parse_unsigned]
      · simp [uitoaRev]
    · have hnum : 0 < num := Nat.pos_of_ne_zero hz
      have hdiv : num / base < k := by
        have h1 : num / base < num := Nat.div_lt_self hnum (by omega)
        omega
      obtain ⟨ih1, ih2⟩ := ih (num / base) hdiv
      have hmod : num % base < base := Nat.mod_lt _ (by omega)
      have hstep : uitoaRev (k + 1) num base up
          = digitChar up (num % base) :: uitoaRev k (num / base) base up := by
        simp [uitoaRev, hz]
      constructor
      · rw [hstep, List.reverse_cons, parse_unsigned_append, ih1,
          digitVal_digitChar up _ (by omega)]
        rw [Nat.mul_comm (num / base) base, Nat.div_add_mod]
      · intro c hc
        rw [hstep] at hc
        rcases List.mem_cons.mp hc with h1 | h1
        · exact ⟨num % base, hmod, h1⟩
        · exact ih2 c h1

/-- C8: for every unsigned 64-bit value and base in {8, 10, 16}, parsing the
digit string produced by `uitoa` yields the value back; the string is
non-empty and consists only of digits of the base (so it carries no sign,
prefix, or padding characters). -/
theorem c8_uitoa_parse_roundtrip :
    ∀ (v base : Nat) (up : Bool), (base = 8 ∨ base = 10 ∨ base = 16) →
      v < 2 ^ 64 →
      parse_unsigned (uitoa v base up) base = v ∧
      uitoa v base up ≠ [] ∧
      (∀ c ∈ uitoa v base up, digitVal c < base) := by
  intro v base up hb _
  have hb2 : 2 ≤ base := by rcases hb with h | h | h <;> omega
  have hb16 : base ≤ 16 := by rcases hb with h | h | h <;> omega
  by_cases hz : v = 0
  · subst hz
    have hd0 : digitVal '0' = 0 := by decide
    refine ⟨?_, ?_, ?_⟩
    · simp [uitoa, parse_unsigned, hd0]
    · simp [uitoa]
    · intro c hc
      simp [uitoa] at hc
      subst hc
      omega
  · obtain ⟨h1, h2⟩ := uitoaRev_parse base hb2 hb16 up (v + 1) v (by omega)
    refine ⟨?_, ?_, ?_⟩
    · rw [uitoa, if_neg hz]
      exact h1
    · rw [uitoa, if_neg hz]
      have hstep : uitoaRev (v + 1) v base up
          = digitChar up (v % base) :: uitoaRev v (v / base) base up := by
        simp [uitoaRev, hz]
      simp [hstep]
    · intro c hc
      rw [uitoa, if_neg hz, List.mem_reverse] at hc
      obtain ⟨d, hd, rfl⟩ := h2 c hc
      rw [digitVal_digitChar up d (by omega)]
      exact hd

/-- Witness for C8 at 255 in base 16. -/
theorem c8_uitoa_parse_roundtrip_witness :
    parse_unsigned (uitoa 255 16 false) 16 = 255 :=
  (c8_uitoa_parse_roundtrip 255 16 false (Or.inr (Or.inr rfl)) (by norm_num)).1

/-- The `%p` field for a nonzero pointer value: the `0x` prefix followed by
the lowercase hex digits, with the default flags the parser produces for
`"%p"` and `alternate_form` forced by the engine. -/
theorem formatU_pointer (v : Nat) (h0 : ¬(v = 0)) :
    formatU ⟨false, false, false, false, true, 0, -1, Char.ofNat 0, 'p'⟩ v
      = '0' :: 'x' :: uitoa v 16 false := by
  have hA : ¬(((uitoa v 16 false).length : Int) + 2 < -1) := by omega
  have hB : ¬(((uitoa v 16 false).length : Int) + 2 < 0) := by omega
  simp [formatU, h0, hA, hB]

/-- The lowercase digit table only produces lowercase hex characters. -/
theorem digitChar_lower_mem : ∀ d : Nat, d < 16 →
    digitChar false d ∈ ("0123456789abcdef").toList := by decide

/-- C9 (amended): for every non-null pointer value the `%p` conversion
renders the `0x` prefix followed by the lowercase hexadecimal digits of the
address; a null pointer renders as `"0"` without the prefix (shown in the
counterexample theorem). -/
theorem c9_amended_pointer_lowercase_hex (v : Nat) (h0 : 0 < v)
    (h64 : v < 2 ^ 64) :
    format_to_buffer (memOf (("%p").toList)) [CArg.p v]
      = '0' :: 'x' :: uitoa v 16 false ∧
    (∀ c ∈ uitoa v 16 false, c ∈ ("0123456789abcdef").toList) := by
  have hz : ¬(v = 0) := by omega
  constructor
  · show formatLoop 4 ['%', 'p', nulChar] [CArg.p v]
      = '0' :: 'x' :: uitoa v 16 false
    rw [show formatLoop 4 ['%', 'p', nulChar] [CArg.p v]
        = formatU ⟨false, false, false, false, true, 0, -1, Char.ofNat 0, 'p'⟩
            (v % 2 ^ 64) ++ formatLoop 3 [nulChar] [] from rfl]
    rw [show formatLoop 3 [nulChar] ([] : List CArg) = [] from rfl]
    rw [Nat.mod_eq_of_lt h64, formatU_pointer v hz, List.append_nil]
  · intro c hc
    rw [uitoa, if_neg hz, List.mem_reverse] at hc
    obtain ⟨d, hd, rfl⟩ :=
      (uitoaRev_parse 16 (by omega) (by omega) false (v + 1) v (by omega)).2 c hc
    exact digitChar_lower_mem d (by omega)

/-- Witness for C9 at the pointer value 255: `%p` yields `"0xff"`. -/
theorem c9_amended_pointer_lowercase_hex_witness :
    format_to_buffer (memOf (("%p").toList)) [CArg.p 255]
      = '0' :: 'x' :: uitoa 255 16 false :=
  (c9_amended_pointer_lowercase_hex 255 (by norm_num) (by norm_num)).1

/-- C10: the `%c` conversion emits exactly one byte — the case body depends
only on the fetched character, so the width, left-justify and zero-pad
fields of the directive are ignored; concretely `"%5c"` with `'A'` yields
`"A"` and `"%-08c"` with `'B'` yields `"B"`. -/
theorem c10_char_conversion_single_byte :
    (∀ (f : format_flags) (a : CArg) (rest : List CArg), f.specifier = 'c' →
        dispatch f (a :: rest)
          = some ([Char.ofNat ((argAsInt a) % 2 ^ 8).toNat], rest)) ∧
    format_to_buffer (memOf (("%5c").toList)) [CArg.i 65] = ("A").toList ∧
    format_to_buffer (memOf (("%-08c").toList)) [CArg.i 66] = ("B").toList := by
  refine ⟨?_, by decide, by decide⟩
  intro f a rest h
  simp [dispatch, h, takeArg]

/-- Witness for C10: with the `"%5c"` flags (width 5) and argument list
`['A', out-slot]`, the `%c` dispatch emits the single byte `'A'`. -/
theorem c10_char_conversion_single_byte_witness :
    dispatch ⟨false, false, false, false, false, 5, -1, Char.ofNat 0, 'c'⟩
        [CArg.i 65, CArg.outParam]
      = some (['A'], [CArg.outParam]) :=
  c10_char_conversion_single_byte.1
    ⟨false, false, false, false, false, 5, -1, Char.ofNat 0, 'c'⟩
    (CArg.i 65) [CArg.outParam] rfl
